/-
Verification of the Shadow-EVM core (Rust) against its natural-language
specification.

The development shallowly embeds the core crate (src/core/src):
- `hashing.rs`: a concrete, executable Keccak-256 over byte lists, plus
  `compute_commitment` and the struct-hashing pipeline;
- `state.rs`: `AccountState` and `InMemoryDB` with the BTreeMap fields
  modelled as sorted association lists over `Nat` keys, together with the
  four `revm::Database` reads;
- `input.rs` / `output.rs`: the execution input/output data model with
  bincode-style canonical serialization;
- `errors.rs`: the error taxonomy;
- `evm.rs`: the orchestration (`execute`, `simulate`,
  `apply_state_changes`, `build_output`), with the external `revm`
  engine (`Evm::transact`) abstracted as an explicit function argument,
  as the spec treats the bytecode interpreter as an external collaborator.

Machine integers: `u64` and `U256` fields are represented as `Nat`; all
arithmetic performed by the embedded code (gas accounting, byte
extraction) stays within range by construction, and the relevant
theorems carry explicit `< 2 ^ 64` bounds where the claim is about `u64`.
Addresses (20 bytes) and 256-bit words are `Nat` values; 32-byte hashes
are byte lists.
-/

import Mathlib

set_option maxRecDepth 4096

namespace ShadowEvm

/-! ## Keccak-256 (the `sha3` crate's `Keccak256`, used by `hashing.rs`)

A direct implementation of the Keccak-f[1600] permutation and the
Keccak-256 sponge (rate 136 bytes, pad10*1 with domain byte `0x01`).
Lanes are `Nat` values below `2 ^ 64`; the state is a list of 25 lanes.
It is validated below against the byte-for-byte test vectors in the
repository's own `hashing.rs` tests (empty input and `"hello"`). -/

/-- All-ones 64-bit mask. -/
def UMASK : Nat := 2 ^ 64 - 1

/-- Rotate a 64-bit lane left by `n` (for `x < 2 ^ 64`, `n < 64`). -/
def rotl64 (x n : Nat) : Nat :=
  Nat.lor (Nat.land (Nat.shiftLeft x n) UMASK) (Nat.shiftRight x (64 - n))

/-- Keccak-f[1600] round constants. -/
def keccakRC : List Nat :=
  [0x0000000000000001, 0x0000000000008082, 0x800000000000808a, 0x8000000080008000,
   0x000000000000808b, 0x0000000080000001, 0x8000000080008081, 0x8000000000008009,
   0x000000000000008a, 0x0000000000000088, 0x0000000080008009, 0x000000008000000a,
   0x000000008000808b, 0x800000000000008b, 0x8000000000008089, 0x8000000000008003,
   0x8000000000008002, 0x8000000000000080, 0x000000000000800a, 0x800000008000000a,
   0x8000000080008081, 0x8000000000008080, 0x0000000080000001, 0x8000000080008008]

/-- Combined rho/pi step table: entry at target index `t` is the pair
`(source index, rotation)` with `t = y + 5 * ((2x + 3y) % 5)` for source
coordinates `(x, y)` at index `x + 5y`. -/
def keccakPiTable : List (Nat × Nat) :=
  [(0, 0), (6, 44), (12, 43), (18, 21), (24, 14),
   (3, 28), (9, 20), (10, 3), (16, 45), (22, 61),
   (1, 1), (7, 6), (13, 25), (19, 8), (20, 18),
   (4, 27), (5, 36), (11, 10), (17, 15), (23, 56),
   (2, 62), (8, 55), (14, 39), (15, 41), (21, 2)]

/-- Read lane `i` of a state (0 outside the 25 lanes). -/
def lane (A : List Nat) (i : Nat) : Nat := A.getD i 0

/-- Keccak theta step. -/
def keccakTheta (A : List Nat) : List Nat :=
  let C := [0, 1, 2, 3, 4].map (fun x =>
    Nat.xor (lane A x) (Nat.xor (lane A (x + 5)) (Nat.xor (lane A (x + 10))
      (Nat.xor (lane A (x + 15)) (lane A (x + 20))))))
  let D := [0, 1, 2, 3, 4].map (fun x =>
    Nat.xor (lane C ((x + 4) % 5)) (rotl64 (lane C ((x + 1) % 5)) 1))
  (List.range 25).map (fun i => Nat.xor (lane A i) (lane D (i % 5)))

/-- Keccak rho and pi steps combined. -/
def keccakRhoPi (A : List Nat) : List Nat :=
  keccakPiTable.map (fun p => rotl64 (lane A p.1) p.2)

/-- Keccak chi step (`not` within 64 bits is xor with the mask). -/
def keccakChi (B : List Nat) : List Nat :=
  (List.range 25).map (fun i =>
    let row := 5 * (i / 5)
    let x := i % 5
    Nat.xor (lane B i)
      (Nat.land (Nat.xor (lane B (row + (x + 1) % 5)) UMASK) (lane B (row + (x + 2) % 5))))

/-- One Keccak-f round: theta, rho/pi, chi, iota. -/
def keccakRound (A : List Nat) (rc : Nat) : List Nat :=
  let B := keccakChi (keccakRhoPi (keccakTheta A))
  Nat.xor (lane B 0) rc :: B.drop 1

/-- The full 24-round Keccak-f[1600] permutation. -/
def keccakF (A : List Nat) : List Nat := keccakRC.foldl keccakRound A

/-- pad10*1 padding with Keccak domain byte `0x01` for rate 136. -/
def keccakPad (len : Nat) : List Nat :=
  let p := 136 - len % 136
  if p = 1 then [0x81] else 0x01 :: (List.replicate (p - 2) 0 ++ [0x80])

/-- Interpret up to 8 bytes as a little-endian 64-bit lane. -/
def bytesToLane (bs : List Nat) : Nat := bs.foldr (fun b acc => b + 256 * acc) 0

/-- Absorb one 136-byte block into the sponge state. -/
def absorbBlock (st : List Nat) (block : List Nat) : List Nat :=
  keccakF ((List.range 25).map (fun i =>
    if i < 17 then Nat.xor (lane st i) (bytesToLane ((block.drop (8 * i)).take 8))
    else lane st i))

/-- Absorb `n` consecutive 136-byte blocks. -/
def absorbBlocks : Nat → List Nat → List Nat → List Nat
  | 0, st, _ => st
  | n + 1, st, bytes => absorbBlocks n (absorbBlock st (bytes.take 136)) (bytes.drop 136)

/-- Serialize a 64-bit lane to 8 little-endian bytes. -/
def laneBytes (x : Nat) : List Nat :=
  [x % 256, x / 256 % 256, x / 256 ^ 2 % 256, x / 256 ^ 3 % 256,
   x / 256 ^ 4 % 256, x / 256 ^ 5 % 256, x / 256 ^ 6 % 256, x / 256 ^ 7 % 256]

/-- Keccak-256 of a byte list: 32-byte digest.  Embeds
`hashing.rs::keccak256` (which feeds all data through `sha3::Keccak256`). -/
def keccak256 (m : List Nat) : List Nat :=
  let padded := m ++ keccakPad m.length
  let st := absorbBlocks (padded.length / 136) (List.replicate 25 0) padded
  laneBytes (lane st 0) ++ laneBytes (lane st 1) ++ laneBytes (lane st 2) ++ laneBytes (lane st 3)

/-! ## BTreeMap model

`state.rs` stores accounts, storage slots and block hashes in
`alloc::collections::BTreeMap` with `Nat`-orderable keys (addresses,
256-bit words, block numbers).  A `BTreeMap` is modelled as an
association list kept sorted by strictly increasing key; `btInsert`
replaces on an equal key, `btRemove` removes the key's entry, and
`btLookup` is `BTreeMap::get`. -/

/-- Embeds `BTreeMap::get`. -/
def btLookup {β : Type} (k : Nat) : List (Nat × β) → Option β
  | [] => none
  | (k', v) :: rest => if k = k' then some v else btLookup k rest

/-- Embeds `BTreeMap::insert` on a key-sorted association list. -/
def btInsert {β : Type} (k : Nat) (v : β) : List (Nat × β) → List (Nat × β)
  | [] => [(k, v)]
  | (k', v') :: rest =>
    if k < k' then (k, v) :: (k', v') :: rest
    else if k = k' then (k, v) :: rest
    else (k', v') :: btInsert k v rest

/-- Embeds `BTreeMap::remove` on a key-sorted association list. -/
def btRemove {β : Type} (k : Nat) : List (Nat × β) → List (Nat × β)
  | [] => []
  | (k', v') :: rest => if k = k' then rest else (k', v') :: btRemove k rest

/-- Well-formedness of a modelled `BTreeMap`: keys strictly increase. -/
def btWF {β : Type} (l : List (Nat × β)) : Prop :=
  l.Pairwise (fun a b => a.1 < b.1)

instance {β : Type} (l : List (Nat × β)) : Decidable (btWF l) := by
  unfold btWF; infer_instance

/-! ## Canonical serialization (`bincode::serialize`)

`hashing.rs::hash_struct` hashes the bincode encoding of a value.
bincode v1 with default options writes fixed-width little-endian
integers, a `u64` length prefix for sequences and maps, raw bytes for
fixed byte arrays (`Address`, `B256`), 32 little-endian bytes for
`alloy_primitives::U256`, and a tag byte for `Option`.  Struct fields
are concatenated in declaration order. -/

/-- Serialize a `u64` as 8 little-endian bytes. -/
def serU64 (n : Nat) : List Nat :=
  [n % 256, n / 256 % 256, n / 256 ^ 2 % 256, n / 256 ^ 3 % 256,
   n / 256 ^ 4 % 256, n / 256 ^ 5 % 256, n / 256 ^ 6 % 256, n / 256 ^ 7 % 256]

/-- Serialize a `U256` as 32 little-endian bytes. -/
def serU256 (n : Nat) : List Nat := (List.range 32).map (fun i => n / 256 ^ i % 256)

/-- The 20 raw bytes of an address (big-endian bytes of the 160-bit value). -/
def serAddress (n : Nat) : List Nat := (List.range 20).map (fun i => n / 256 ^ (19 - i) % 256)

/-- A 32-byte hash serializes as its raw bytes. -/
def serHash (h : List Nat) : List Nat := h

/-- Embeds `Vec<u8>`: `u64` length prefix followed by the bytes. -/
def serBytes (b : List Nat) : List Nat := serU64 b.length ++ b

/-- Embeds `Option<T>`: tag byte then the payload. -/
def serOption {α : Type} (f : α → List Nat) : Option α → List Nat
  | none => [0]
  | some a => 1 :: f a

/-- A sequence: `u64` length prefix, then each element. -/
def serSeq {α : Type} (f : α → List Nat) (l : List α) : List Nat :=
  serU64 l.length ++ (l.map f).flatten

/-- A `BTreeMap`: `u64` length prefix, then each key/value pair in key order. -/
def serMap {β : Type} (fk : Nat → List Nat) (fv : β → List Nat) (l : List (Nat × β)) : List Nat :=
  serU64 l.length ++ (l.map (fun p => fk p.1 ++ fv p.2)).flatten

/-! ## `state.rs`: `AccountState` and `InMemoryDB` -/

/-- Hash of the empty code (`revm::primitives::KECCAK_EMPTY`). -/
def KECCAK_EMPTY : List Nat := keccak256 []

/-- Embeds `state.rs::AccountState`: balance, nonce, code hash, code bytes and
sparse storage. -/
structure AccountState where
  balance : Nat
  nonce : Nat
  code_hash : List Nat
  code : List Nat
  storage : List (Nat × Nat)
deriving DecidableEq

/-- Embeds `AccountState::new_with_balance`. -/
def AccountState.new_with_balance (balance : Nat) : AccountState :=
  { balance := balance, nonce := 0, code_hash := KECCAK_EMPTY, code := [], storage := [] }

/-- Embeds `AccountState::new_contract`. -/
def AccountState.new_contract (code : List Nat) (balance : Nat) : AccountState :=
  { balance := balance, nonce := 1, code_hash := keccak256 code, code := code, storage := [] }

/-- Embeds `AccountState::new_contract_with_storage`: the caller's storage map is
stored verbatim. -/
def AccountState.new_contract_with_storage (code : List Nat) (balance : Nat)
    (storage : List (Nat × Nat)) : AccountState :=
  { balance := balance, nonce := 1, code_hash := keccak256 code, code := code, storage := storage }

/-- Embeds `AccountState::set_storage`: zero removes the slot, non-zero inserts. -/
def AccountState.set_storage (a : AccountState) (slot value : Nat) : AccountState :=
  if value = 0 then { a with storage := btRemove slot a.storage }
  else { a with storage := btInsert slot value a.storage }

/-- Embeds `AccountState::get_storage`: absent slots read as zero. -/
def AccountState.get_storage (a : AccountState) (slot : Nat) : Nat :=
  (btLookup slot a.storage).getD 0

/-- Canonical serialization of an `AccountState` (its five fields in
declaration order). -/
def serAccount (a : AccountState) : List Nat :=
  serU256 a.balance ++ serU64 a.nonce ++ serHash a.code_hash ++ serBytes a.code ++
    serMap serU256 serU256 a.storage

/-- Embeds `state.rs::InMemoryDB`: accounts and historical block hashes. -/
structure InMemoryDB where
  accounts : List (Nat × AccountState)
  block_hashes : List (Nat × List Nat)
deriving DecidableEq

/-- Embeds `InMemoryDB::new`. -/
def InMemoryDB.new : InMemoryDB := { accounts := [], block_hashes := [] }

/-- Embeds `InMemoryDB::insert_account`. -/
def InMemoryDB.insert_account (db : InMemoryDB) (address : Nat) (account : AccountState) :
    InMemoryDB :=
  { db with accounts := btInsert address account db.accounts }

/-- Embeds `InMemoryDB::get_account`. -/
def InMemoryDB.get_account (db : InMemoryDB) (address : Nat) : Option AccountState :=
  btLookup address db.accounts

/-- Embeds `InMemoryDB::insert_block_hash`. -/
def InMemoryDB.insert_block_hash (db : InMemoryDB) (number : Nat) (hash : List Nat) : InMemoryDB :=
  { db with block_hashes := btInsert number hash db.block_hashes }

/-- Canonical serialization of the accounts map. -/
def serAccounts (l : List (Nat × AccountState)) : List Nat := serMap serAddress serAccount l

/-- Embeds `InMemoryDB::compute_state_root`: `hash_struct(&self.accounts)`. -/
def InMemoryDB.compute_state_root (db : InMemoryDB) : List Nat :=
  keccak256 (serAccounts db.accounts)

/-! ## `errors.rs`: the error taxonomy -/

/-- Embeds `errors.rs::ShadowEvmError`. -/
inductive ShadowEvmError where
  | AccountNotFound (address : Nat)
  | StorageNotFound (account : Nat) (slot : List Nat)
  | ExecutionReverted (msg : String)
  | ExecutionHalted (msg : String)
  | InvalidBytecode (msg : String)
  | SerializationError (msg : String)
  | CommitmentMismatch (expected actual : List Nat)
  | InvalidTransaction (msg : String)
  | DatabaseError (msg : String)
deriving DecidableEq

/-! ## The `revm::Database` reads of `InMemoryDB` -/

/-- Embeds `revm::primitives::AccountInfo` as returned by `Database::basic`. -/
structure AccountInfo where
  balance : Nat
  nonce : Nat
  code_hash : List Nat
  code : Option (List Nat)
deriving DecidableEq

/-- Embeds `Database::basic for InMemoryDB`. -/
def InMemoryDB.basic (db : InMemoryDB) (address : Nat) :
    Except ShadowEvmError (Option AccountInfo) :=
  .ok ((btLookup address db.accounts).map (fun acc =>
    { balance := acc.balance, nonce := acc.nonce, code_hash := acc.code_hash,
      code := if acc.code.isEmpty then none else some acc.code }))

/-- Embeds `Database::code_by_hash for InMemoryDB`: the empty-code sentinel short
circuits; otherwise a linear search in address order for an account whose
code hash matches and whose code is non-empty; empty bytecode if none. -/
def InMemoryDB.code_by_hash (db : InMemoryDB) (code_hash : List Nat) :
    Except ShadowEvmError (List Nat) :=
  if code_hash = KECCAK_EMPTY then .ok []
  else
    match db.accounts.find? (fun p => decide (p.2.code_hash = code_hash) && !p.2.code.isEmpty) with
    | some p => .ok p.2.code
    | none => .ok []

/-- Embeds `Database::storage for InMemoryDB`. -/
def InMemoryDB.storage (db : InMemoryDB) (address slot : Nat) : Except ShadowEvmError Nat :=
  .ok (((btLookup address db.accounts).map (fun acc => acc.get_storage slot)).getD 0)

/-- Embeds `Database::block_hash for InMemoryDB`. -/
def InMemoryDB.block_hash (db : InMemoryDB) (number : Nat) : Except ShadowEvmError (List Nat) :=
  .ok ((btLookup number db.block_hashes).getD (List.replicate 32 0))

/-! ## `hashing.rs`: commitment binding -/

/-- Embeds `hashing.rs::compute_commitment`: Keccak-256 of the 64-byte
concatenation `input_hash || output_hash` (both arguments are 32-byte
hashes wherever the program calls this). -/
def compute_commitment (input_hash output_hash : List Nat) : List Nat :=
  keccak256 (input_hash ++ output_hash)

/-! ## `input.rs`: `BlockEnv`, `TxInput`, `ExecutionInput` -/

/-- Embeds `input.rs::BlockEnv`. -/
structure BlockEnv where
  number : Nat
  timestamp : Nat
  gas_limit : Nat
  coinbase : Nat
  base_fee : Nat
  prev_randao : List Nat
  chain_id : Nat
deriving DecidableEq

/-- Embeds `BlockEnv::default`. -/
def BlockEnv.default : BlockEnv :=
  { number := 1, timestamp := 1700000000, gas_limit := 30000000, coinbase := 0,
    base_fee := 1000000000, prev_randao := List.replicate 32 0, chain_id := 1 }

/-- Embeds `input.rs::TxInput`. -/
structure TxInput where
  caller : Nat
  to_addr : Option Nat
  value : Nat
  data : List Nat
  gas_limit : Nat
  gas_price : Nat
  nonce : Nat
deriving DecidableEq

/-- Embeds `TxInput::default`. -/
def TxInput.default : TxInput :=
  { caller := 0, to_addr := none, value := 0, data := [], gas_limit := 10000000,
    gas_price := 1000000000, nonce := 0 }

/-- Embeds `TxInput::transfer`. -/
def TxInput.transfer (caller dest value : Nat) : TxInput :=
  { TxInput.default with caller := caller, to_addr := some dest, value := value, gas_limit := 21000 }

/-- Embeds `input.rs::ExecutionInput`. -/
structure ExecutionInput where
  block : BlockEnv
  tx : TxInput
  pre_state : InMemoryDB
deriving DecidableEq

/-- Canonical serialization of a `BlockEnv` (fields in declaration order). -/
def serBlockEnv (b : BlockEnv) : List Nat :=
  serU64 b.number ++ serU64 b.timestamp ++ serU64 b.gas_limit ++ serAddress b.coinbase ++
    serU256 b.base_fee ++ serHash b.prev_randao ++ serU64 b.chain_id

/-- Canonical serialization of a `TxInput` (fields in declaration order). -/
def serTxInput (t : TxInput) : List Nat :=
  serAddress t.caller ++ serOption serAddress t.to_addr ++ serU256 t.value ++ serBytes t.data ++
    serU64 t.gas_limit ++ serU256 t.gas_price ++ serU64 t.nonce

/-- Canonical serialization of an `InMemoryDB` (accounts, then block hashes). -/
def serInMemoryDB (db : InMemoryDB) : List Nat :=
  serAccounts db.accounts ++ serMap serU64 serHash db.block_hashes

/-- Canonical serialization of an `ExecutionInput`. -/
def serExecutionInput (i : ExecutionInput) : List Nat :=
  serBlockEnv i.block ++ serTxInput i.tx ++ serInMemoryDB i.pre_state

/-- Embeds `ExecutionInput::hash`: `hash_struct(self)`. -/
def ExecutionInput.hash (i : ExecutionInput) : List Nat := keccak256 (serExecutionInput i)

/-- Embeds `ExecutionInput::pre_state_root`. -/
def ExecutionInput.pre_state_root (i : ExecutionInput) : List Nat :=
  i.pre_state.compute_state_root

/-! ## `output.rs`: `Log`, `ExecutionStatus`, `ExecutionOutput`,
`ExecutionCommitment` -/

/-- Embeds `output.rs::Log`. -/
structure Log where
  address : Nat
  topics : List (List Nat)
  data : List Nat
deriving DecidableEq

/-- Embeds `Log::new`. -/
def Log.new (address : Nat) (topics : List (List Nat)) (data : List Nat) : Log :=
  { address := address, topics := topics, data := data }

/-- Embeds `output.rs::ExecutionStatus`. -/
inductive ExecutionStatus where
  | Success
  | Revert
  | Halt
deriving DecidableEq

/-- Embeds `output.rs::ExecutionOutput`. -/
structure ExecutionOutput where
  status : ExecutionStatus
  return_data : List Nat
  gas_used : Nat
  gas_refunded : Nat
  logs : List Log
  post_state : InMemoryDB
  created_address : Option Nat
deriving DecidableEq

/-- Embeds `ExecutionOutput::success`. -/
def ExecutionOutput.success (return_data : List Nat) (gas_used gas_refunded : Nat)
    (logs : List Log) (post_state : InMemoryDB) : ExecutionOutput :=
  { status := .Success, return_data := return_data, gas_used := gas_used,
    gas_refunded := gas_refunded, logs := logs, post_state := post_state,
    created_address := none }

/-- Embeds `ExecutionOutput::revert` (refund forced to zero, logs forced empty). -/
def ExecutionOutput.revert (return_data : List Nat) (gas_used : Nat) (post_state : InMemoryDB) :
    ExecutionOutput :=
  { status := .Revert, return_data := return_data, gas_used := gas_used, gas_refunded := 0,
    logs := [], post_state := post_state, created_address := none }

/-- Embeds `ExecutionOutput::halt` (return data, refund and logs all forced empty). -/
def ExecutionOutput.halt (gas_used : Nat) (post_state : InMemoryDB) : ExecutionOutput :=
  { status := .Halt, return_data := [], gas_used := gas_used, gas_refunded := 0,
    logs := [], post_state := post_state, created_address := none }

/-- Embeds `ExecutionOutput::effective_gas_used`: the refund is capped at half of
the gas used (integer division). -/
def ExecutionOutput.effective_gas_used (o : ExecutionOutput) : Nat :=
  o.gas_used - min o.gas_refunded (o.gas_used / 2)

/-- Embeds `ExecutionOutput::with_created_address`. -/
def ExecutionOutput.with_created_address (o : ExecutionOutput) (address : Nat) :
    ExecutionOutput :=
  { o with created_address := some address }

/-- Canonical serialization of an `ExecutionStatus` (bincode enum variant
index as a little-endian `u32`). -/
def serStatus : ExecutionStatus → List Nat
  | .Success => [0, 0, 0, 0]
  | .Revert => [1, 0, 0, 0]
  | .Halt => [2, 0, 0, 0]

/-- Canonical serialization of a `Log`. -/
def serLog (l : Log) : List Nat :=
  serAddress l.address ++ serSeq serHash l.topics ++ serBytes l.data

/-- Canonical serialization of an `ExecutionOutput`. -/
def serExecutionOutput (o : ExecutionOutput) : List Nat :=
  serStatus o.status ++ serBytes o.return_data ++ serU64 o.gas_used ++ serU64 o.gas_refunded ++
    serSeq serLog o.logs ++ serInMemoryDB o.post_state ++ serOption serAddress o.created_address

/-- Embeds `ExecutionOutput::hash`: `hash_struct(self)`. -/
def ExecutionOutput.hash (o : ExecutionOutput) : List Nat := keccak256 (serExecutionOutput o)

/-- Embeds `ExecutionOutput::post_state_root`. -/
def ExecutionOutput.post_state_root (o : ExecutionOutput) : List Nat :=
  o.post_state.compute_state_root

/-- Embeds `output.rs::ExecutionCommitment`. -/
structure ExecutionCommitment where
  input_hash : List Nat
  output_hash : List Nat
  pre_state_root : List Nat
  post_state_root : List Nat
  commitment : List Nat
deriving DecidableEq

/-- Embeds `ExecutionCommitment::new`. -/
def ExecutionCommitment.new (input_hash output_hash pre_state_root post_state_root : List Nat) :
    ExecutionCommitment :=
  { input_hash := input_hash, output_hash := output_hash, pre_state_root := pre_state_root,
    post_state_root := post_state_root,
    commitment := compute_commitment input_hash output_hash }

/-- Embeds `ExecutionCommitment::verify`. -/
def ExecutionCommitment.verify (c : ExecutionCommitment) (input_hash output_hash : List Nat) :
    Bool :=
  decide (c.input_hash = input_hash) && decide (c.output_hash = output_hash) &&
    decide (c.commitment = compute_commitment input_hash output_hash)

/-! ## The external engine (`revm`)

`ShadowExecutor` hands the block env, tx env and the pre-state database to
`revm` and receives a `ResultAndState`: the terminal outcome plus the
per-account state reported as touched.  `revm` is an external collaborator
(explicitly out of core scope in the spec), so the whole
`build_evm`/`transact` step is abstracted as a function from the
configuration to `Except String ResultAndState`; an `Err` from it models a
failed `transact` call, whose debug formatting is the diagnostic string. -/

/-- Embeds `revm::primitives::AccountInfo` as reported in a result's state. -/
structure EvmAccountInfo where
  balance : Nat
  nonce : Nat
  code_hash : List Nat
  code : Option (List Nat)
deriving DecidableEq

/-- A reported storage slot (`EvmStorageSlot`); only `present_value` is
read by the reconciliation. -/
structure EvmStorageSlot where
  present_value : Nat
deriving DecidableEq

/-- One touched account in a `ResultAndState`. -/
structure EvmAccount where
  info : EvmAccountInfo
  storage : List (Nat × EvmStorageSlot)
deriving DecidableEq

/-- Embeds `revm::primitives::Log`. -/
structure EvmLog where
  address : Nat
  topics : List (List Nat)
  data : List Nat
deriving DecidableEq

/-- Embeds `revm::primitives::Output`. -/
inductive EvmOutput where
  | Call (data : List Nat)
  | Create (data : List Nat) (address : Option Nat)
deriving DecidableEq

/-- Embeds `revm::primitives::ExecutionResult`. -/
inductive EvmExecutionResult where
  | Success (output : EvmOutput) (gas_used gas_refunded : Nat) (logs : List EvmLog)
  | Revert (output : List Nat) (gas_used : Nat)
  | Halt (gas_used : Nat)
deriving DecidableEq

/-- Embeds `revm::primitives::ResultAndState`. -/
structure ResultAndState where
  state : List (Nat × EvmAccount)
  result : EvmExecutionResult
deriving DecidableEq

/-- The abstracted engine: `build_evm` followed by `Evm::transact`. -/
def Engine : Type :=
  BlockEnv → TxInput → InMemoryDB → Except String ResultAndState

/-! ## `evm.rs`: `ShadowExecutor` -/

/-- The per-account body of `ShadowExecutor::apply_state_changes`: if an
account exists at the address, its balance and nonce are overwritten and
each reported slot is `set_storage`d; otherwise a fresh account is created
from the reported balance and nonce, the code fields are copied when code
is reported, and each reported slot is `set_storage`d. -/
def applyAccount (existing : Option AccountState) (account : EvmAccount) : AccountState :=
  match existing with
  | some e =>
    account.storage.foldl (fun acc sv => acc.set_storage sv.1 sv.2.present_value)
      { e with balance := account.info.balance, nonce := account.info.nonce }
  | none =>
    let base := AccountState.new_with_balance account.info.balance
    let base := { base with nonce := account.info.nonce }
    let base :=
      match account.info.code with
      | some code => { base with code := code, code_hash := account.info.code_hash }
      | none => base
    account.storage.foldl (fun acc sv => acc.set_storage sv.1 sv.2.present_value) base

/-- One iteration of the loop in `apply_state_changes`: the reconciled
record replaces (or is inserted at) the touched address. -/
def applyOne (db : InMemoryDB) (entry : Nat × EvmAccount) : InMemoryDB :=
  let reconciled := applyAccount (btLookup entry.1 db.accounts) entry.2
  { db with accounts := btInsert entry.1 reconciled db.accounts }

/-- Embeds `ShadowExecutor::apply_state_changes` (the database is threaded
explicitly instead of `&mut`; the Rust function always returns `Ok(())`). -/
def apply_state_changes (db : InMemoryDB) (result : ResultAndState) :
    Except ShadowEvmError InMemoryDB :=
  .ok (result.state.foldl applyOne db)

/-- Embeds `ShadowExecutor::convert_logs`. -/
def convert_logs (logs : List EvmLog) : List Log :=
  logs.map (fun l => Log.new l.address l.topics l.data)

/-- Embeds `ShadowExecutor::build_output`. -/
def build_output (result : EvmExecutionResult) (db : InMemoryDB) :
    Except ShadowEvmError ExecutionOutput :=
  match result with
  | .Success output gas_used gas_refunded logs =>
    let rd_ca :=
      match output with
      | .Call data => (data, none)
      | .Create data addr => (data, addr)
    let out := ExecutionOutput.success rd_ca.1 gas_used gas_refunded (convert_logs logs) db
    match rd_ca.2 with
    | some addr => .ok (out.with_created_address addr)
    | none => .ok out
  | .Revert output gas_used => .ok (ExecutionOutput.revert output gas_used db)
  | .Halt gas_used => .ok (ExecutionOutput.halt gas_used db)

/-- Embeds `ShadowExecutor::execute`: hash the input and pre-state, invoke the
engine (an engine failure surfaces as `ExecutionHalted` with the
diagnostic), reconcile the reported state into a copy of the pre-state,
build the output, and assemble the commitment. -/
def execute (engine : Engine) (input : ExecutionInput) :
    Except ShadowEvmError (ExecutionOutput × ExecutionCommitment) :=
  let input_hash := input.hash
  let pre_state_root := input.pre_state_root
  match engine input.block input.tx input.pre_state with
  | .error e => .error (.ExecutionHalted e)
  | .ok result =>
    match apply_state_changes input.pre_state result with
    | .error e => .error e
    | .ok post_state =>
      match build_output result.result post_state with
      | .error e => .error e
      | .ok output =>
        .ok (output,
          ExecutionCommitment.new input_hash output.hash pre_state_root output.post_state_root)

/-- Embeds `ShadowExecutor::simulate`: identical engine invocation, but the
output is built over the caller's original pre-state and no commitment is
produced. -/
def simulate (engine : Engine) (input : ExecutionInput) :
    Except ShadowEvmError ExecutionOutput :=
  match engine input.block input.tx input.pre_state with
  | .error e => .error (.ExecutionHalted e)
  | .ok result => build_output result.result input.pre_state

/-! ## Concrete fixtures

Small concrete values mirroring the repository's test setups, used by the
witness theorems below. -/

/-- Fixture: an execution input with default block/tx and empty pre-state. -/
def sampleInput : ExecutionInput :=
  { block := BlockEnv.default, tx := TxInput.default, pre_state := InMemoryDB.new }

/-- Fixture: an engine that halts immediately touching no account. -/
def haltEngine : Engine := fun _ _ _ => .ok { state := [], result := .Halt 0 }

/-- Fixture: an engine whose invocation fails. -/
def failEngine : Engine := fun _ _ _ => .error "engine failure"

/-- Fixture: an engine reporting a successful call that credits balance
1000 to address 2 (so committing its result would mutate balances). -/
def transferEngine : Engine := fun _ _ _ =>
  .ok { state := [(2, { info := { balance := 1000, nonce := 0, code_hash := [], code := none },
                        storage := [] })],
        result := .Success (.Call []) 21000 0 [] }

/-- Fixture: a pre-existing account with one storage slot. -/
def sampleAccount : AccountState :=
  { balance := 1, nonce := 0, code_hash := [], code := [], storage := [(3, 9)] }

/-- Fixture: a database holding `sampleAccount` at address 1. -/
def sampleDB : InMemoryDB := { accounts := [(1, sampleAccount)], block_hashes := [] }

/-- Fixture: an engine-reported touched account clearing slot 3 and
writing slot 4. -/
def touchedAccount : EvmAccount :=
  { info := { balance := 5, nonce := 2, code_hash := [], code := none },
    storage := [(3, { present_value := 0 }), (4, { present_value := 7 })] }

/-- Fixture: an engine result touching address 1. -/
def sampleResult : ResultAndState := { state := [(1, touchedAccount)], result := .Halt 0 }

/-- Fixture: a successful output with a large reported refund. -/
def sampleOutput : ExecutionOutput := ExecutionOutput.success [] 100000 60000 [] InMemoryDB.new

/-! ## Validation of the Keccak-256 embedding

These are the byte-for-byte test vectors asserted by the repository's own
`hashing.rs` tests (`test_keccak256_empty`, `test_keccak256_hello`). -/

/-- The embedded Keccak-256 reproduces the repository's empty-input test
vector. -/
theorem keccak256_empty_vector : keccak256 [] =
    [0xc5, 0xd2, 0x46, 0x01, 0x86, 0xf7, 0x23, 0x3c, 0x92, 0x7e, 0x7d, 0xb2, 0xdc, 0xc7, 0x03,
     0xc0, 0xe5, 0x00, 0xb6, 0x53, 0xca, 0x82, 0x27, 0x3b, 0x7b, 0xfa, 0xd8, 0x04, 0x5d, 0x85,
     0xa4, 0x70] := by
  decide

/-- The embedded Keccak-256 reproduces the repository's `"hello"` test
vector. -/
theorem keccak256_hello_vector : keccak256 [104, 101, 108, 108, 111] =
    [0x1c, 0x8a, 0xff, 0x95, 0x06, 0x85, 0xc2, 0xed, 0x4b, 0xc3, 0x17, 0x4f, 0x34, 0x72, 0x28,
     0x7b, 0x56, 0xd9, 0x51, 0x7b, 0x9c, 0x94, 0x81, 0x27, 0x31, 0x9a, 0x09, 0xa7, 0xa3, 0x6d,
     0xea, 0xc8] := by
  decide

/-! ## BTreeMap lemmas -/

/-- Looking up a freshly inserted key finds the inserted value. -/
theorem btLookup_insert_self {β : Type} (k : Nat) (v : β) (l : List (Nat × β)) :
    btLookup k (btInsert k v l) = some v := by
  induction l with
  | nil => simp [btInsert, btLookup]
  | cons hd t ih =>
    obtain ⟨k', v'⟩ := hd
    by_cases h1 : k < k'
    · simp [btInsert, h1, btLookup]
    · by_cases h2 : k = k'
      · simp [btInsert, h1, h2, btLookup]
      · simp [btInsert, h1, h2, btLookup, ih]

/-- Inserting at one key leaves lookups at other keys unchanged. -/
theorem btLookup_insert_ne {β : Type} (k j : Nat) (v : β) (l : List (Nat × β)) (h : j ≠ k) :
    btLookup j (btInsert k v l) = btLookup j l := by
  induction l with
  | nil => simp [btInsert, btLookup, h]
  | cons hd t ih =>
    obtain ⟨k', v'⟩ := hd
    by_cases h1 : k < k'
    · simp [btInsert, h1, btLookup, h]
    · by_cases h2 : k = k'
      · subst h2; simp [btInsert, h1, btLookup, h]
      · simp [btInsert, h1, h2, btLookup, ih]

/-- Removing one key leaves lookups at other keys unchanged. -/
theorem btLookup_remove_ne {β : Type} (k j : Nat) (l : List (Nat × β)) (h : j ≠ k) :
    btLookup j (btRemove k l) = btLookup j l := by
  induction l with
  | nil => simp [btRemove]
  | cons hd t ih =>
    obtain ⟨k', v'⟩ := hd
    by_cases h1 : k = k'
    · subst h1; simp [btRemove, btLookup, h]
    · simp [btRemove, h1, btLookup, ih]

/-- A key held by no entry looks up to `none`. -/
theorem btLookup_eq_none {β : Type} (k : Nat) (l : List (Nat × β)) (h : ∀ p ∈ l, p.1 ≠ k) :
    btLookup k l = none := by
  induction l with
  | nil => rfl
  | cons hd t ih =>
    obtain ⟨k', v'⟩ := hd
    have hne : k ≠ k' := fun heq => h (k', v') (List.mem_cons_self _ _) heq.symm
    simp only [btLookup, if_neg hne]
    exact ih (fun p hp => h p (List.mem_cons_of_mem _ hp))

/-- A successful lookup exhibits a list member. -/
theorem btLookup_mem {β : Type} {k : Nat} {v : β} {l : List (Nat × β)}
    (h : btLookup k l = some v) : (k, v) ∈ l := by
  induction l with
  | nil => simp [btLookup] at h
  | cons hd t ih =>
    obtain ⟨k', v'⟩ := hd
    by_cases h1 : k = k'
    · subst h1
      simp [btLookup] at h
      simp [h]
    · simp [btLookup, h1] at h
      exact List.mem_cons_of_mem _ (ih h)

/-- Members of an insertion result are the new pair or old members. -/
theorem mem_btInsert {β : Type} {p : Nat × β} {k : Nat} {v : β} {l : List (Nat × β)}
    (h : p ∈ btInsert k v l) : p = (k, v) ∨ p ∈ l := by
  induction l with
  | nil => simpa [btInsert] using h
  | cons hd t ih =>
    obtain ⟨k', v'⟩ := hd
    by_cases h1 : k < k'
    · rw [show btInsert k v ((k', v') :: t) = (k, v) :: (k', v') :: t by simp [btInsert, h1]] at h
      exact List.mem_cons.mp h
    · by_cases h2 : k = k'
      · rw [show btInsert k v ((k', v') :: t) = (k, v) :: t by simp [btInsert, h1, h2]] at h
        rcases List.mem_cons.mp h with h | h
        · exact Or.inl h
        · exact Or.inr (List.mem_cons_of_mem _ h)
      · rw [show btInsert k v ((k', v') :: t) = (k', v') :: btInsert k v t by
          simp [btInsert, h1, h2]] at h
        rcases List.mem_cons.mp h with h | h
        · exact Or.inr (by simp [h])
        · rcases ih h with h | h
          · exact Or.inl h
          · exact Or.inr (List.mem_cons_of_mem _ h)

/-- Members of a removal result are old members. -/
theorem mem_btRemove {β : Type} {p : Nat × β} {k : Nat} {l : List (Nat × β)}
    (h : p ∈ btRemove k l) : p ∈ l := by
  induction l with
  | nil => simp [btRemove] at h
  | cons hd t ih =>
    obtain ⟨k', v'⟩ := hd
    by_cases h1 : k = k'
    · simp [btRemove, h1] at h
      exact List.mem_cons_of_mem _ h
    · simp [btRemove, h1] at h
      rcases h with h | h
      · simp [h]
      · exact List.mem_cons_of_mem _ (ih h)

/-- Insertion preserves the sortedness invariant. -/
theorem btWF_insert {β : Type} (k : Nat) (v : β) (l : List (Nat × β)) (h : btWF l) :
    btWF (btInsert k v l) := by
  induction l with
  | nil => simp [btInsert, btWF]
  | cons hd t ih =>
    obtain ⟨k', v'⟩ := hd
    rw [btWF, List.pairwise_cons] at h
    by_cases h1 : k < k'
    · have he : btInsert k v ((k', v') :: t) = (k, v) :: (k', v') :: t := by simp [btInsert, h1]
      rw [btWF, he, List.pairwise_cons]
      constructor
      · intro p hp
        rcases List.mem_cons.mp hp with rfl | hp
        · exact h1
        · exact h1.trans (h.1 p hp)
      · rw [List.pairwise_cons]
        exact ⟨h.1, h.2⟩
    · by_cases h2 : k = k'
      · have he : btInsert k v ((k', v') :: t) = (k, v) :: t := by simp [btInsert, h1, h2]
        rw [btWF, he, List.pairwise_cons]
        subst h2
        exact ⟨h.1, h.2⟩
      · have hk : k' < k := by omega
        have he : btInsert k v ((k', v') :: t) = (k', v') :: btInsert k v t := by
          simp [btInsert, h1, h2]
        rw [btWF, he, List.pairwise_cons]
        constructor
        · intro p hp
          rcases mem_btInsert hp with rfl | hp
          · exact hk
          · exact h.1 p hp
        · exact ih h.2

/-- Removal preserves the sortedness invariant. -/
theorem btWF_remove {β : Type} (k : Nat) (l : List (Nat × β)) (h : btWF l) :
    btWF (btRemove k l) := by
  induction l with
  | nil => simpa [btRemove] using h
  | cons hd t ih =>
    obtain ⟨k', v'⟩ := hd
    rw [btWF, List.pairwise_cons] at h
    by_cases h1 : k = k'
    · simpa [btRemove, h1] using h.2
    · rw [btWF]
      simp only [btRemove, if_neg h1, List.pairwise_cons]
      exact ⟨fun p hp => h.1 p (mem_btRemove hp), ih h.2⟩

/-- On a sorted map, removing a key makes it look up to `none`. -/
theorem btLookup_remove_self {β : Type} (k : Nat) (l : List (Nat × β)) (h : btWF l) :
    btLookup k (btRemove k l) = none := by
  induction l with
  | nil => rfl
  | cons hd t ih =>
    obtain ⟨k', v'⟩ := hd
    rw [btWF, List.pairwise_cons] at h
    by_cases h1 : k = k'
    · subst h1
      simp only [btRemove, if_pos rfl]
      exact btLookup_eq_none _ _ (fun p hp => Nat.ne_of_gt (h.1 p hp))
    · simp only [btRemove, if_neg h1, btLookup, if_neg h1]
      exact ih h.2

/-- Removing a freshly inserted, previously absent key restores the map. -/
theorem btRemove_insert {β : Type} (k : Nat) (v : β) (l : List (Nat × β))
    (h : btLookup k l = none) : btRemove k (btInsert k v l) = l := by
  induction l with
  | nil => simp [btInsert, btRemove]
  | cons hd t ih =>
    obtain ⟨k', v'⟩ := hd
    have hne : k ≠ k' := by
      intro e
      rw [btLookup, if_pos e] at h
      exact Option.noConfusion h
    have ht : btLookup k t = none := by
      rwa [btLookup, if_neg hne] at h
    by_cases h1 : k < k'
    · simp [btInsert, h1, btRemove]
    · simp [btInsert, h1, hne, btRemove, ih ht]

/-! ## Account storage lemmas -/

/-- Writing a storage slot does not change the other account fields. -/
theorem set_storage_fields (a : AccountState) (s v : Nat) :
    (a.set_storage s v).balance = a.balance ∧ (a.set_storage s v).nonce = a.nonce ∧
    (a.set_storage s v).code = a.code ∧ (a.set_storage s v).code_hash = a.code_hash := by
  unfold AccountState.set_storage
  split <;> exact ⟨rfl, rfl, rfl, rfl⟩

/-- Writing one slot leaves lookups at other slots unchanged. -/
theorem set_storage_lookup_ne (a : AccountState) (slot v s : Nat) (h : s ≠ slot) :
    btLookup s (a.set_storage slot v).storage = btLookup s a.storage := by
  unfold AccountState.set_storage
  split
  · exact btLookup_remove_ne _ _ _ h
  · exact btLookup_insert_ne _ _ _ _ h

/-- On a sorted storage map, a write is read back: zero reads as absent,
non-zero as the written value. -/
theorem set_storage_lookup_self (a : AccountState) (slot v : Nat) (h : btWF a.storage) :
    btLookup slot (a.set_storage slot v).storage = if v = 0 then none else some v := by
  unfold AccountState.set_storage
  by_cases h0 : v = 0
  · simp only [if_pos h0]
    exact btLookup_remove_self _ _ h
  · simp only [if_neg h0]
    exact btLookup_insert_self _ _ _

/-- Writing a slot preserves storage sortedness. -/
theorem set_storage_wf (a : AccountState) (slot v : Nat) (h : btWF a.storage) :
    btWF (a.set_storage slot v).storage := by
  unfold AccountState.set_storage
  split
  · exact btWF_remove _ _ h
  · exact btWF_insert _ _ _ h

/-- Folding the reported slots of a touched account over `set_storage`
does not change the non-storage fields. -/
theorem foldl_set_storage_fields (l : List (Nat × EvmStorageSlot)) (a : AccountState) :
    (l.foldl (fun acc sv => acc.set_storage sv.1 sv.2.present_value) a).balance = a.balance ∧
    (l.foldl (fun acc sv => acc.set_storage sv.1 sv.2.present_value) a).nonce = a.nonce ∧
    (l.foldl (fun acc sv => acc.set_storage sv.1 sv.2.present_value) a).code = a.code ∧
    (l.foldl (fun acc sv => acc.set_storage sv.1 sv.2.present_value) a).code_hash =
      a.code_hash := by
  induction l generalizing a with
  | nil => exact ⟨rfl, rfl, rfl, rfl⟩
  | cons hd t ih =>
    rw [List.foldl_cons]
    obtain ⟨hb, hn, hc, hh⟩ := ih (a.set_storage hd.1 hd.2.present_value)
    obtain ⟨hb', hn', hc', hh'⟩ := set_storage_fields a hd.1 hd.2.present_value
    exact ⟨hb.trans hb', hn.trans hn', hc.trans hc', hh.trans hh'⟩

/-- Folding reported slots preserves storage sortedness. -/
theorem foldl_set_storage_wf (l : List (Nat × EvmStorageSlot)) (a : AccountState)
    (h : btWF a.storage) :
    btWF (l.foldl (fun acc sv => acc.set_storage sv.1 sv.2.present_value) a).storage := by
  induction l generalizing a with
  | nil => exact h
  | cons hd t ih =>
    rw [List.foldl_cons]
    exact ih _ (set_storage_wf _ _ _ h)

/-- Slots not reported by the engine keep their lookup through the fold. -/
theorem foldl_set_storage_lookup_not_mem (l : List (Nat × EvmStorageSlot)) (a : AccountState)
    (s : Nat) (h : s ∉ l.map Prod.fst) :
    btLookup s (l.foldl (fun acc sv => acc.set_storage sv.1 sv.2.present_value) a).storage =
      btLookup s a.storage := by
  induction l generalizing a with
  | nil => rfl
  | cons hd t ih =>
    simp only [List.map_cons, List.mem_cons, not_or] at h
    rw [List.foldl_cons, ih _ h.2, set_storage_lookup_ne _ _ _ _ h.1]

/-- A reported slot reads back its reported value after the fold: absent
when the reported value is zero, the reported value otherwise (sorted
storage, distinct reported slots). -/
theorem foldl_set_storage_lookup_mem (l : List (Nat × EvmStorageSlot)) (a : AccountState)
    (s : Nat) (pv : EvmStorageSlot) (hnd : (l.map Prod.fst).Nodup) (hwf : btWF a.storage)
    (hmem : (s, pv) ∈ l) :
    btLookup s (l.foldl (fun acc sv => acc.set_storage sv.1 sv.2.present_value) a).storage =
      if pv.present_value = 0 then none else some pv.present_value := by
  obtain ⟨l1, l2, rfl⟩ := List.append_of_mem hmem
  have hs2 : s ∉ l2.map Prod.fst := by
    rw [List.map_append, List.map_cons] at hnd
    have := (List.Nodup.of_append_right hnd)
    rw [List.nodup_cons] at this
    exact this.1
  rw [List.foldl_append, List.foldl_cons]
  rw [foldl_set_storage_lookup_not_mem _ _ _ hs2]
  exact set_storage_lookup_self _ _ _ (foldl_set_storage_wf _ _ hwf)

/-! ## Reconciliation lemmas (`apply_state_changes`) -/

/-- Reconciliation never touches the block-hash table. -/
theorem foldl_applyOne_block_hashes (l : List (Nat × EvmAccount)) (db : InMemoryDB) :
    (l.foldl applyOne db).block_hashes = db.block_hashes := by
  induction l generalizing db with
  | nil => rfl
  | cons hd t ih => rw [List.foldl_cons]; exact ih _

/-- Addresses not reported as touched keep their account lookup. -/
theorem foldl_applyOne_lookup_not_mem (l : List (Nat × EvmAccount)) (db : InMemoryDB)
    (a : Nat) (h : a ∉ l.map Prod.fst) :
    btLookup a (l.foldl applyOne db).accounts = btLookup a db.accounts := by
  induction l generalizing db with
  | nil => rfl
  | cons hd t ih =>
    simp only [List.map_cons, List.mem_cons, not_or] at h
    rw [List.foldl_cons, ih _ h.2]
    exact btLookup_insert_ne _ _ _ _ h.1

/-- A touched address ends up holding exactly the reconciled record built
from its pre-state lookup and the engine-reported account (distinct
touched addresses). -/
theorem foldl_applyOne_lookup_mem (l : List (Nat × EvmAccount)) (db : InMemoryDB)
    (a : Nat) (acct : EvmAccount) (hnd : (l.map Prod.fst).Nodup) (hmem : (a, acct) ∈ l) :
    btLookup a (l.foldl applyOne db).accounts =
      some (applyAccount (btLookup a db.accounts) acct) := by
  obtain ⟨l1, l2, rfl⟩ := List.append_of_mem hmem
  rw [List.map_append, List.map_cons] at hnd
  have ha2 : a ∉ l2.map Prod.fst := by
    have := List.Nodup.of_append_right hnd
    rw [List.nodup_cons] at this
    exact this.1
  have ha1 : a ∉ l1.map Prod.fst := by
    have hd := List.disjoint_of_nodup_append hnd
    intro hmem1
    exact hd hmem1 (List.mem_cons_self _ _)
  rw [List.foldl_append, List.foldl_cons, foldl_applyOne_lookup_not_mem _ _ _ ha2]
  show btLookup a (btInsert a _ _) = _
  rw [btLookup_insert_self, foldl_applyOne_lookup_not_mem _ _ _ ha1]

/-- Field content of the reconciled record when the account existed:
balance and nonce are the engine's reported values, code and code hash
are carried over. -/
theorem applyAccount_existing_fields (e : AccountState) (acct : EvmAccount) :
    (applyAccount (some e) acct).balance = acct.info.balance ∧
    (applyAccount (some e) acct).nonce = acct.info.nonce ∧
    (applyAccount (some e) acct).code = e.code ∧
    (applyAccount (some e) acct).code_hash = e.code_hash := by
  unfold applyAccount
  exact foldl_set_storage_fields _ _

/-- Field content of the reconciled record when the account was absent. -/
theorem applyAccount_new_fields (acct : EvmAccount) :
    (applyAccount none acct).balance = acct.info.balance ∧
    (applyAccount none acct).nonce = acct.info.nonce ∧
    (acct.info.code = none → (applyAccount none acct).code = [] ∧
      (applyAccount none acct).code_hash = KECCAK_EMPTY) ∧
    (∀ c, acct.info.code = some c → (applyAccount none acct).code = c ∧
      (applyAccount none acct).code_hash = acct.info.code_hash) := by
  cases hcode : acct.info.code with
  | none =>
    have hbase : applyAccount none acct =
        acct.storage.foldl (fun acc sv => acc.set_storage sv.1 sv.2.present_value)
          { balance := acct.info.balance, nonce := acct.info.nonce, code_hash := KECCAK_EMPTY,
            code := [], storage := [] } := by
      unfold applyAccount
      rw [hcode]
      rfl
    rw [hbase]
    obtain ⟨hb, hn, hc, hh⟩ := foldl_set_storage_fields acct.storage
      { balance := acct.info.balance, nonce := acct.info.nonce, code_hash := KECCAK_EMPTY,
        code := [], storage := [] }
    exact ⟨hb, hn, fun _ => ⟨hc, hh⟩, fun c hcontra => Option.noConfusion hcontra⟩
  | some c0 =>
    have hbase : applyAccount none acct =
        acct.storage.foldl (fun acc sv => acc.set_storage sv.1 sv.2.present_value)
          { balance := acct.info.balance, nonce := acct.info.nonce,
            code_hash := acct.info.code_hash, code := c0, storage := [] } := by
      unfold applyAccount
      rw [hcode]
      rfl
    rw [hbase]
    obtain ⟨hb, hn, hc, hh⟩ := foldl_set_storage_fields acct.storage
      { balance := acct.info.balance, nonce := acct.info.nonce,
        code_hash := acct.info.code_hash, code := c0, storage := [] }
    refine ⟨hb, hn, fun hcontra => Option.noConfusion hcontra, ?_⟩
    intro c hc0
    injection hc0 with hc0
    subst hc0
    exact ⟨hc, hh⟩

/-! ## Orchestrator lemmas -/

/-- Output construction is total: every engine outcome maps to an output. -/
theorem build_output_ok (result : EvmExecutionResult) (db : InMemoryDB) :
    ∃ out, build_output result db = .ok out := by
  cases result with
  | Success output gas_used gas_refunded logs =>
    cases output with
    | Call data => exact ⟨_, rfl⟩
    | Create data addr =>
      cases addr with
      | none => exact ⟨_, rfl⟩
      | some a => exact ⟨_, rfl⟩
  | Revert output gas_used => exact ⟨_, rfl⟩
  | Halt gas_used => exact ⟨_, rfl⟩

/-- The output built by `build_output` carries exactly the database it was
given as its post-state. -/
theorem build_output_post_state (result : EvmExecutionResult) (db : InMemoryDB)
    (out : ExecutionOutput) (h : build_output result db = .ok out) : out.post_state = db := by
  cases result with
  | Success output gas_used gas_refunded logs =>
    cases output with
    | Call data =>
      injection h with h
      subst h
      rfl
    | Create data addr =>
      cases addr with
      | none =>
        injection h with h
        subst h
        rfl
      | some a =>
        injection h with h
        subst h
        rfl
  | Revert output gas_used =>
    injection h with h
    subst h
    rfl
  | Halt gas_used =>
    injection h with h
    subst h
    rfl

/-! ## Claim theorems -/

/-- C1: for every fixed `ExecutionInput` (two structurally identical
copies `i1 = i2`), the two calls of `ShadowExecutor::execute` return the
same result, and in particular any two returned commitments agree on all
five hash fields and the outputs agree on the effective gas used.  In the
shallow embedding `execute` is a pure function of the engine and the
input, which is exactly the determinism property: the Rust path consults
no clock, randomness or global state. -/
theorem execute_deterministic (engine : Engine) (i1 i2 : ExecutionInput) (h : i1 = i2) :
    execute engine i1 = execute engine i2 ∧
    ∀ out1 cmt1 out2 cmt2, execute engine i1 = .ok (out1, cmt1) →
      execute engine i2 = .ok (out2, cmt2) →
      cmt1.input_hash = cmt2.input_hash ∧ cmt1.output_hash = cmt2.output_hash ∧
      cmt1.pre_state_root = cmt2.pre_state_root ∧
      cmt1.post_state_root = cmt2.post_state_root ∧ cmt1.commitment = cmt2.commitment ∧
      out1.effective_gas_used = out2.effective_gas_used := by
  subst h
  refine ⟨rfl, ?_⟩
  intro out1 cmt1 out2 cmt2 h1 h2
  rw [h1] at h2
  injection h2 with h2
  injection h2 with ho hc
  subst ho
  subst hc
  exact ⟨rfl, rfl, rfl, rfl, rfl, rfl⟩

/-- Witness for C1 at a concrete engine and input. -/
theorem execute_deterministic_witness :
    execute haltEngine sampleInput = execute haltEngine sampleInput :=
  (execute_deterministic haltEngine sampleInput sampleInput rfl).1

/-- C6: `effective_gas_used` computes `gas_used - min(gas_refunded,
gas_used / 2)` with truncating division, and on the repository's test
values returns 50000 (capped) and 80000 (uncapped). -/
theorem effective_gas_used_formula :
    (∀ o : ExecutionOutput,
      o.effective_gas_used = o.gas_used - min o.gas_refunded (o.gas_used / 2)) ∧
    (∀ rd logs db, (ExecutionOutput.success rd 100000 60000 logs db).effective_gas_used =
      50000) ∧
    (∀ rd logs db, (ExecutionOutput.success rd 100000 20000 logs db).effective_gas_used =
      80000) := by
  refine ⟨fun o => rfl, fun rd logs db => ?_, fun rd logs db => ?_⟩
  · show 100000 - min (60000 : Nat) (100000 / 2) = 50000
    omega
  · show 100000 - min (20000 : Nat) (100000 / 2) = 80000
    omega

/-- C10: for any `u64` gas values, the refund actually subtracted is at
most `gas_used`, so the subtraction in `effective_gas_used` cannot
underflow, and the result lies between `gas_used - gas_used / 2` and
`gas_used`. -/
theorem effective_gas_used_bounds (o : ExecutionOutput)
    (h1 : o.gas_used < 2 ^ 64) (h2 : o.gas_refunded < 2 ^ 64) :
    min o.gas_refunded (o.gas_used / 2) ≤ o.gas_used ∧
    o.gas_used - o.gas_used / 2 ≤ o.effective_gas_used ∧
    o.effective_gas_used ≤ o.gas_used := by
  unfold ExecutionOutput.effective_gas_used
  omega

/-- Witness for C10 at the concrete fixture output. -/
theorem effective_gas_used_bounds_witness :
    sampleOutput.gas_used < 2 ^ 64 ∧ sampleOutput.gas_refunded < 2 ^ 64 ∧
    (min sampleOutput.gas_refunded (sampleOutput.gas_used / 2) ≤ sampleOutput.gas_used ∧
      sampleOutput.gas_used - sampleOutput.gas_used / 2 ≤ sampleOutput.effective_gas_used ∧
      sampleOutput.effective_gas_used ≤ sampleOutput.gas_used) :=
  ⟨by decide, by decide, effective_gas_used_bounds sampleOutput (by decide) (by decide)⟩

/-- C8: an engine invocation failure surfaces as `ExecutionHalted` with
the diagnostic string; an engine success always yields `Ok`; hence every
error returned by `execute` is among `ExecutionHalted` and
`SerializationError`.  In this path canonical serialization is total
(`hash_struct` cannot fail on these types), so the `SerializationError`
arm is never exercised, which is consistent with the claim's side
condition. -/
theorem execute_error_taxonomy (engine : Engine) (input : ExecutionInput) :
    (∀ e, engine input.block input.tx input.pre_state = .error e →
      execute engine input = .error (.ExecutionHalted e)) ∧
    (∀ rs, engine input.block input.tx input.pre_state = .ok rs →
      ∃ out cmt, execute engine input = .ok (out, cmt)) ∧
    (∀ err, execute engine input = .error err →
      (∃ s, err = .ExecutionHalted s) ∨ (∃ s, err = .SerializationError s)) := by
  refine ⟨?_, ?_, ?_⟩
  · intro e he
    unfold execute
    rw [he]
  · intro rs hrs
    obtain ⟨out, hout⟩ := build_output_ok rs.result (rs.state.foldl applyOne input.pre_state)
    refine ⟨out, ExecutionCommitment.new input.hash out.hash input.pre_state_root
      out.post_state_root, ?_⟩
    unfold execute
    rw [hrs]
    show (match build_output rs.result (rs.state.foldl applyOne input.pre_state) with
      | Except.error e => Except.error e
      | Except.ok output => Except.ok (output, ExecutionCommitment.new input.hash output.hash
          input.pre_state_root output.post_state_root)) = _
    rw [hout]
  · intro err herr
    cases heng : engine input.block input.tx input.pre_state with
    | error e =>
      unfold execute at herr
      rw [heng] at herr
      injection herr with herr
      exact Or.inl ⟨e, herr.symm⟩
    | ok rs =>
      obtain ⟨out, hout⟩ := build_output_ok rs.result (rs.state.foldl applyOne input.pre_state)
      have hok : execute engine input = .ok (out, ExecutionCommitment.new input.hash out.hash
          input.pre_state_root out.post_state_root) := by
        unfold execute
        rw [heng]
        show (match build_output rs.result (rs.state.foldl applyOne input.pre_state) with
          | Except.error e => Except.error e
          | Except.ok output => Except.ok (output, ExecutionCommitment.new input.hash output.hash
              input.pre_state_root output.post_state_root)) = _
        rw [hout]
      rw [hok] at herr
      exact Except.noConfusion herr

/-- Witness for C8 at a concrete failing engine. -/
theorem execute_error_taxonomy_witness :
    (∃ s, ShadowEvmError.ExecutionHalted "engine failure" = ShadowEvmError.ExecutionHalted s) ∨
    (∃ s, ShadowEvmError.ExecutionHalted "engine failure" =
      ShadowEvmError.SerializationError s) :=
  (execute_error_taxonomy failEngine sampleInput).2.2 _ rfl

/-- C9: whatever result the engine reports, the output returned by
`ShadowExecutor::simulate` reuses the caller's original pre-state as its
post-state, so its post-state root equals the input's pre-state root; the
return type carries no commitment. -/
theorem simulate_preserves_pre_state (engine : Engine) (input : ExecutionInput)
    (out : ExecutionOutput) (h : simulate engine input = .ok out) :
    out.post_state = input.pre_state ∧ out.post_state_root = input.pre_state_root := by
  unfold simulate at h
  cases heng : engine input.block input.tx input.pre_state with
  | error e =>
    rw [heng] at h
    exact Except.noConfusion h
  | ok rs =>
    rw [heng] at h
    have hps := build_output_post_state rs.result input.pre_state out h
    refine ⟨hps, ?_⟩
    rw [ExecutionOutput.post_state_root, hps]
    rfl

/-- Witness for C9: the fixture engine's reported state change would
credit address 2 under `execute`, yet the simulated output's post-state is
the untouched pre-state. -/
theorem simulate_preserves_pre_state_witness :
    (ExecutionOutput.success [] 21000 0 [] sampleInput.pre_state).post_state =
      sampleInput.pre_state ∧
    (ExecutionOutput.success [] 21000 0 [] sampleInput.pre_state).post_state_root =
      sampleInput.pre_state_root :=
  simulate_preserves_pre_state transferEngine sampleInput _ rfl

/-- C4: `apply_state_changes` starts from the pre-state and, for every
address the engine reports as touched (addresses are distinct, as they
key a map in the engine result): if an account exists there, its balance
and nonce are overwritten with the reported values while code and code
hash stay unchanged, and every reported storage slot is set — or removed
when the reported value is zero — with unreported slots untouched; if no
account exists, a fresh account is created with the reported balance,
nonce and storage, and with the reported code and code hash when code is
reported (empty code and the empty-code sentinel otherwise); every
address not reported as touched maps to exactly its pre-state record. -/
theorem apply_state_changes_spec (db post : InMemoryDB) (r : ResultAndState)
    (hnd : (r.state.map Prod.fst).Nodup)
    (h : apply_state_changes db r = .ok post) :
    post.block_hashes = db.block_hashes ∧
    (∀ a, a ∉ r.state.map Prod.fst → btLookup a post.accounts = btLookup a db.accounts) ∧
    (∀ a acct, (a, acct) ∈ r.state →
      ∀ e, btLookup a db.accounts = some e → btWF e.storage →
        (acct.storage.map Prod.fst).Nodup →
        ∃ fin, btLookup a post.accounts = some fin ∧
          fin.balance = acct.info.balance ∧ fin.nonce = acct.info.nonce ∧
          fin.code = e.code ∧ fin.code_hash = e.code_hash ∧
          (∀ s, s ∉ acct.storage.map Prod.fst →
            btLookup s fin.storage = btLookup s e.storage) ∧
          (∀ s pv, (s, pv) ∈ acct.storage →
            btLookup s fin.storage =
              if pv.present_value = 0 then none else some pv.present_value)) ∧
    (∀ a acct, (a, acct) ∈ r.state → btLookup a db.accounts = none →
      (acct.storage.map Prod.fst).Nodup →
      ∃ fin, btLookup a post.accounts = some fin ∧
        fin.balance = acct.info.balance ∧ fin.nonce = acct.info.nonce ∧
        (acct.info.code = none → fin.code = [] ∧ fin.code_hash = KECCAK_EMPTY) ∧
        (∀ c, acct.info.code = some c → fin.code = c ∧
          fin.code_hash = acct.info.code_hash) ∧
        (∀ s, s ∉ acct.storage.map Prod.fst → btLookup s fin.storage = none) ∧
        (∀ s pv, (s, pv) ∈ acct.storage →
          btLookup s fin.storage =
            if pv.present_value = 0 then none else some pv.present_value)) := by
  have hpost : post = r.state.foldl applyOne db := by
    unfold apply_state_changes at h
    injection h with h
    exact h.symm
  subst hpost
  refine ⟨foldl_applyOne_block_hashes _ _, foldl_applyOne_lookup_not_mem _ _, ?_, ?_⟩
  · intro a acct hmem e he hwfe hnds
    refine ⟨applyAccount (some e) acct, ?_, ?_, ?_, ?_, ?_, ?_, ?_⟩
    · rw [foldl_applyOne_lookup_mem _ _ _ _ hnd hmem, he]
    · exact (applyAccount_existing_fields e acct).1
    · exact (applyAccount_existing_fields e acct).2.1
    · exact (applyAccount_existing_fields e acct).2.2.1
    · exact (applyAccount_existing_fields e acct).2.2.2
    · intro s hs
      unfold applyAccount
      exact foldl_set_storage_lookup_not_mem _ _ _ hs
    · intro s pv hsv
      unfold applyAccount
      exact foldl_set_storage_lookup_mem _ _ _ _ hnds hwfe hsv
  · intro a acct hmem he hnds
    refine ⟨applyAccount none acct, ?_, ?_, ?_, ?_, ?_, ?_, ?_⟩
    · rw [foldl_applyOne_lookup_mem _ _ _ _ hnd hmem, he]
    · exact (applyAccount_new_fields acct).1
    · exact (applyAccount_new_fields acct).2.1
    · exact (applyAccount_new_fields acct).2.2.1
    · exact (applyAccount_new_fields acct).2.2.2
    · intro s hs
      cases hcode : acct.info.code with
      | none =>
        have hbase : applyAccount none acct =
            acct.storage.foldl (fun acc sv => acc.set_storage sv.1 sv.2.present_value)
              { balance := acct.info.balance, nonce := acct.info.nonce,
                code_hash := KECCAK_EMPTY, code := [], storage := [] } := by
          unfold applyAccount
          rw [hcode]
          rfl
        rw [hbase, foldl_set_storage_lookup_not_mem _ _ _ hs]
        rfl
      | some c0 =>
        have hbase : applyAccount none acct =
            acct.storage.foldl (fun acc sv => acc.set_storage sv.1 sv.2.present_value)
              { balance := acct.info.balance, nonce := acct.info.nonce,
                code_hash := acct.info.code_hash, code := c0, storage := [] } := by
          unfold applyAccount
          rw [hcode]
          rfl
        rw [hbase, foldl_set_storage_lookup_not_mem _ _ _ hs]
        rfl
    · intro s pv hsv
      cases hcode : acct.info.code with
      | none =>
        have hbase : applyAccount none acct =
            acct.storage.foldl (fun acc sv => acc.set_storage sv.1 sv.2.present_value)
              { balance := acct.info.balance, nonce := acct.info.nonce,
                code_hash := KECCAK_EMPTY, code := [], storage := [] } := by
          unfold applyAccount
          rw [hcode]
          rfl
        rw [hbase]
        exact foldl_set_storage_lookup_mem _ _ _ _ hnds List.Pairwise.nil hsv
      | some c0 =>
        have hbase : applyAccount none acct =
            acct.storage.foldl (fun acc sv => acc.set_storage sv.1 sv.2.present_value)
              { balance := acct.info.balance, nonce := acct.info.nonce,
                code_hash := acct.info.code_hash, code := c0, storage := [] } := by
          unfold applyAccount
          rw [hcode]
          rfl
        rw [hbase]
        exact foldl_set_storage_lookup_mem _ _ _ _ hnds List.Pairwise.nil hsv

/-- Witness for C4: address 2 is untouched by the fixture result, so its
lookup is carried over unchanged. -/
theorem apply_state_changes_witness :
    btLookup 2 (sampleResult.state.foldl applyOne sampleDB).accounts =
      btLookup 2 sampleDB.accounts :=
  (apply_state_changes_spec sampleDB _ sampleResult (by decide) rfl).2.1 2 (by decide)

/-- C5 counterexample: `new_contract_with_storage` is a public constructor
yet stores the caller's map verbatim, so the account built from the map
`[(1, 0)]` has a present storage entry whose value is zero, contradicting
the claimed invariant for every reachable `AccountState`. -/
theorem new_contract_with_storage_zero_slot_present :
    btLookup 1 (AccountState.new_contract_with_storage [] 0 [(1, 0)]).storage = some 0 := by
  rfl

/-- C5 (amended): accounts built by `new_with_balance` or `new_contract`
satisfy the sparseness invariant (a present entry has a non-zero value),
`new_contract_with_storage` preserves it exactly when the supplied map
already satisfies it, `set_storage` preserves it, writing zero removes
the slot, an absent slot reads as zero, and writing non-zero then zero to
a previously absent slot restores the account and its serialized form
byte for byte. -/
theorem storage_invariant_amended :
    (∀ b s v, (s, v) ∈ (AccountState.new_with_balance b).storage → v ≠ 0) ∧
    (∀ code b s v, (s, v) ∈ (AccountState.new_contract code b).storage → v ≠ 0) ∧
    (∀ code b st, (∀ s v, (s, v) ∈ st → v ≠ 0) →
      ∀ s v, (s, v) ∈ (AccountState.new_contract_with_storage code b st).storage → v ≠ 0) ∧
    (∀ (a : AccountState) (slot val : Nat), (∀ s v, (s, v) ∈ a.storage → v ≠ 0) →
      ∀ s v, (s, v) ∈ (a.set_storage slot val).storage → v ≠ 0) ∧
    (∀ (a : AccountState) (slot : Nat), btWF a.storage →
      btLookup slot (a.set_storage slot 0).storage = none) ∧
    (∀ (a : AccountState) (slot : Nat), btLookup slot a.storage = none →
      a.get_storage slot = 0) ∧
    (∀ (a : AccountState) (slot val : Nat), btLookup slot a.storage = none → val ≠ 0 →
      (a.set_storage slot val).set_storage slot 0 = a ∧
      serAccount ((a.set_storage slot val).set_storage slot 0) = serAccount a) := by
  refine ⟨?_, ?_, ?_, ?_, ?_, ?_, ?_⟩
  · intro b s v h
    simp [AccountState.new_with_balance] at h
  · intro code b s v h
    simp [AccountState.new_contract] at h
  · intro code b st hinv s v h
    exact hinv s v h
  · intro a slot val hinv s v h
    unfold AccountState.set_storage at h
    by_cases h0 : val = 0
    · rw [if_pos h0] at h
      exact hinv s v (mem_btRemove h)
    · rw [if_neg h0] at h
      rcases mem_btInsert h with heq | hm
      · rw [Prod.mk.injEq] at heq
        rw [heq.2]
        exact h0
      · exact hinv s v hm
  · intro a slot hwf
    show btLookup slot (btRemove slot a.storage) = none
    exact btLookup_remove_self _ _ hwf
  · intro a slot h
    unfold AccountState.get_storage
    rw [h]
    rfl
  · intro a slot val habs hval
    have hrec : (a.set_storage slot val).set_storage slot 0 = a := by
      unfold AccountState.set_storage
      rw [if_neg hval]
      show { a with storage := btRemove slot (btInsert slot val a.storage) } = a
      rw [btRemove_insert _ _ _ habs]
    exact ⟨hrec, by rw [hrec]⟩

/-- Witness for C5 (amended): reading an absent slot of a concrete
account yields zero. -/
theorem storage_invariant_amended_witness :
    (AccountState.new_with_balance 5).get_storage 9 = 0 :=
  storage_invariant_amended.2.2.2.2.2.1 (AccountState.new_with_balance 5) 9 rfl

/-- Totality of `code_by_hash`: it always returns `Ok`. -/
theorem code_by_hash_ok (db : InMemoryDB) (ch : List Nat) :
    ∃ v, db.code_by_hash ch = .ok v := by
  unfold InMemoryDB.code_by_hash
  by_cases hch : ch = KECCAK_EMPTY
  · rw [if_pos hch]
    exact ⟨[], rfl⟩
  · rw [if_neg hch]
    cases hf : db.accounts.find? (fun p => decide (p.2.code_hash = ch) && !p.2.code.isEmpty) with
    | none => exact ⟨[], rfl⟩
    | some p => exact ⟨p.2.code, rfl⟩

/-- C7: none of the four `revm::Database` reads of `InMemoryDB` fails for
missing data: `basic` returns `Ok` (with `none` for an absent address),
`storage` returns `Ok` with the stored value and zero for an absent
account or slot, `block_hash` returns `Ok` with the recorded hash and the
zero hash for an unknown block, and `code_by_hash` returns `Ok` — empty
bytecode immediately for the empty-code sentinel, the first matching
account's code when some account holds the hash with non-empty code, and
empty bytecode when none does. -/
theorem database_reads_total (db : InMemoryDB) :
    (∀ a, ∃ v, db.basic a = .ok v) ∧
    (∀ a s, ∃ v, db.storage a s = .ok v) ∧
    (∀ n, ∃ v, db.block_hash n = .ok v) ∧
    (∀ ch, ∃ v, db.code_by_hash ch = .ok v) ∧
    (∀ a, btLookup a db.accounts = none → db.basic a = .ok none) ∧
    (∀ a acct, btLookup a db.accounts = some acct → db.basic a =
      .ok (some (AccountInfo.mk acct.balance acct.nonce acct.code_hash
        (if acct.code.isEmpty then none else some acct.code)))) ∧
    (∀ a s, btLookup a db.accounts = none → db.storage a s = .ok 0) ∧
    (∀ a s acct, btLookup a db.accounts = some acct →
      db.storage a s = .ok (acct.get_storage s)) ∧
    (∀ a s acct, btLookup a db.accounts = some acct → btLookup s acct.storage = none →
      db.storage a s = .ok 0) ∧
    (∀ n, btLookup n db.block_hashes = none →
      db.block_hash n = .ok (List.replicate 32 0)) ∧
    (∀ n hsh, btLookup n db.block_hashes = some hsh → db.block_hash n = .ok hsh) ∧
    (db.code_by_hash KECCAK_EMPTY = .ok []) ∧
    (∀ ch, ch ≠ KECCAK_EMPTY →
      (∃ a acct, (a, acct) ∈ db.accounts ∧ acct.code_hash = ch ∧ acct.code ≠ []) →
      ∃ a acct, (a, acct) ∈ db.accounts ∧ acct.code_hash = ch ∧ acct.code ≠ [] ∧
        db.code_by_hash ch = .ok acct.code) ∧
    (∀ ch, ch ≠ KECCAK_EMPTY →
      (∀ a acct, (a, acct) ∈ db.accounts → acct.code_hash = ch → acct.code = []) →
      db.code_by_hash ch = .ok []) := by
  refine ⟨fun a => ⟨_, rfl⟩, fun a s => ⟨_, rfl⟩, fun n => ⟨_, rfl⟩, code_by_hash_ok db,
    ?_, ?_, ?_, ?_, ?_, ?_, ?_, ?_, ?_, ?_⟩
  · intro a h
    unfold InMemoryDB.basic
    rw [h]
    rfl
  · intro a acct h
    unfold InMemoryDB.basic
    rw [h]
    rfl
  · intro a s h
    unfold InMemoryDB.storage
    rw [h]
    rfl
  · intro a s acct h
    unfold InMemoryDB.storage
    rw [h]
    rfl
  · intro a s acct h hs
    unfold InMemoryDB.storage
    rw [h]
    show Except.ok (acct.get_storage s) = _
    unfold AccountState.get_storage
    rw [hs]
    rfl
  · intro n h
    unfold InMemoryDB.block_hash
    rw [h]
    rfl
  · intro n hsh h
    unfold InMemoryDB.block_hash
    rw [h]
    rfl
  · unfold InMemoryDB.code_by_hash
    rw [if_pos rfl]
  · intro ch hne hex
    unfold InMemoryDB.code_by_hash
    rw [if_neg hne]
    cases hf : db.accounts.find?
        (fun p => decide (p.2.code_hash = ch) && !p.2.code.isEmpty) with
    | none =>
      exfalso
      obtain ⟨a, acct, hmem, hch, hcne⟩ := hex
      have hnp := List.find?_eq_none.mp hf (a, acct) hmem
      apply hnp
      simp [hch, hcne]
    | some p =>
      have hp := List.find?_some hf
      have hpm := List.mem_of_find?_eq_some hf
      simp only [Bool.and_eq_true, decide_eq_true_eq, Bool.not_eq_true'] at hp
      refine ⟨p.1, p.2, hpm, hp.1, ?_, rfl⟩
      intro hc
      rw [hc] at hp
      simp at hp
  · intro ch hne hall
    unfold InMemoryDB.code_by_hash
    rw [if_neg hne]
    cases hf : db.accounts.find?
        (fun p => decide (p.2.code_hash = ch) && !p.2.code.isEmpty) with
    | none => rfl
    | some p =>
      exfalso
      have hp := List.find?_some hf
      have hpm := List.mem_of_find?_eq_some hf
      simp only [Bool.and_eq_true, decide_eq_true_eq, Bool.not_eq_true'] at hp
      have hc := hall p.1 p.2 hpm hp.1
      rw [hc] at hp
      simp at hp

/-- Witness for C7 at a concrete empty database. -/
theorem database_reads_total_witness :
    InMemoryDB.new.basic 5 = .ok none :=
  (database_reads_total InMemoryDB.new).2.2.2.2.1 5 rfl

/-! ## Stability and binding evidence

Facts bearing on the hash-stability and commitment-binding contracts.
They establish everything on the canonical-bytes side of the pipeline;
statements of the form "two different byte strings have different
Keccak-256 digests" are settled here only at concrete instances, by
computing the digests, since the universal form is equivalent to the
absence of specific Keccak-256 collisions. -/

/-- Inserting at two distinct keys commutes, so a modelled `BTreeMap`
and hence its canonical serialization are independent of insertion
order. -/
theorem btInsert_comm {β : Type} (k1 k2 : Nat) (v1 v2 : β) (l : List (Nat × β)) (h : k1 ≠ k2) :
    btInsert k1 v1 (btInsert k2 v2 l) = btInsert k2 v2 (btInsert k1 v1 l) := by
  induction l with
  | nil =>
    simp only [btInsert]
    split_ifs
    all_goals try simp only [btInsert]
    all_goals first | rfl | omega
  | cons hd t ih =>
    obtain ⟨k, v⟩ := hd
    simp only [btInsert]
    split_ifs
    all_goals try simp only [btInsert]
    all_goals try split_ifs
    all_goals try rfl
    all_goals try omega
    all_goals try (rw [ih])

/-- Inserting the same two accounts in either order builds the same
database, hence the same state root. -/
theorem insert_account_comm (db : InMemoryDB) (a1 a2 : Nat) (acc1 acc2 : AccountState)
    (h : a1 ≠ a2) :
    (db.insert_account a2 acc2).insert_account a1 acc1 =
      (db.insert_account a1 acc1).insert_account a2 acc2 ∧
    ((db.insert_account a2 acc2).insert_account a1 acc1).compute_state_root =
      ((db.insert_account a1 acc1).insert_account a2 acc2).compute_state_root := by
  have he : (db.insert_account a2 acc2).insert_account a1 acc1 =
      (db.insert_account a1 acc1).insert_account a2 acc2 := by
    unfold InMemoryDB.insert_account
    rw [btInsert_comm _ _ _ _ _ h]
  exact ⟨he, by rw [he]⟩

/-- Bincode `u64` serialization is injective on 64-bit values. -/
theorem serU64_inj (a b : Nat) (ha : a < 2 ^ 64) (hb : b < 2 ^ 64) (h : serU64 a = serU64 b) :
    a = b := by
  simp only [serU64, List.cons.injEq, and_true] at h
  omega

/-- The canonical bytes of an input start with its block number. -/
theorem serExecutionInput_take8 (i : ExecutionInput) :
    (serExecutionInput i).take 8 = serU64 i.block.number := by
  unfold serExecutionInput serBlockEnv
  simp only [List.append_assoc]
  have hlen : (serU64 i.block.number).length = 8 := rfl
  rw [← hlen, List.take_left]

/-- Changing the block number changes the canonical serialized bytes of
the input — the hashed byte strings provably differ, so equal input
hashes would exhibit a Keccak-256 collision. -/
theorem serExecutionInput_ne_of_number_ne (i1 i2 : ExecutionInput)
    (h1 : i1.block.number < 2 ^ 64) (h2 : i2.block.number < 2 ^ 64)
    (hne : i1.block.number ≠ i2.block.number) :
    serExecutionInput i1 ≠ serExecutionInput i2 := by
  intro heq
  apply hne
  apply serU64_inj _ _ h1 h2
  rw [← serExecutionInput_take8 i1, ← serExecutionInput_take8 i2, heq]

/-- At the repository's own test scenario (two default inputs differing
only in block number 1 vs 2), the input hashes differ — settled by
computing both digests through the embedded Keccak-256. -/
theorem input_hash_number_instance :
    (ExecutionInput.mk BlockEnv.default TxInput.default InMemoryDB.new).hash ≠
      (ExecutionInput.mk { BlockEnv.default with number := 2 } TxInput.default
        InMemoryDB.new).hash := by
  decide

/-- The binding hash is Keccak-256 of the 64-byte concatenation in
argument order; a commitment verifies against its own hash pair and fails
against the swapped pair whenever the hashes differ, because the stored
input hash no longer matches. -/
theorem commitment_binding_order (A B pre post : List Nat) (hne : A ≠ B) :
    compute_commitment A B = keccak256 (A ++ B) ∧
    (ExecutionCommitment.new A B pre post).verify A B = true ∧
    (ExecutionCommitment.new A B pre post).verify B A = false := by
  refine ⟨rfl, ?_, ?_⟩
  · simp [ExecutionCommitment.verify, ExecutionCommitment.new]
  · simp [ExecutionCommitment.verify, ExecutionCommitment.new, hne]

/-- Concrete non-commutativity instance: swapping two distinct 32-byte
hashes changes the commitment — settled by computing both digests. -/
theorem compute_commitment_swap_instance :
    compute_commitment (List.replicate 32 1) (List.replicate 32 2) ≠
      compute_commitment (List.replicate 32 2) (List.replicate 32 1) := by
  decide

end ShadowEvm
